import Mathlib

/- Shallow embedding of src/app.py, the core pipeline of the Universal
   File-to-Text Converter: size formatting, upload staging, the conversion
   engine adapter, and the per-item orchestration loop.  Python binary64
   floats in format_size are modelled by their exact rational values: the
   conversion of an int to float (performed by the first division by 1024.0
   and by the format specifier ".2f") rounds to 53 significant bits, ties to
   even, and raises OverflowError when the rounded magnitude reaches 2^1024;
   every later division by 1024.0 acts on a float that is at least 1024 and
   is therefore an exact exponent shift with no rounding and no overflow;
   ".2f" rounds the exact value of its float argument, ties to even.
   External effects (the filesystem and the conversion engine) are modelled
   as explicit behaviour oracles supplied per item. -/

namespace App

/-- Round a rational to the nearest integer, ties to even: the exact-value
counterpart of rounding performed by the Python format specifier ".2f". -/
def rne (x : ℚ) : ℤ :=
  let f : ℤ := ⌊x⌋
  let r : ℚ := x - (f : ℚ)
  if r < 1 / 2 then f
  else if 1 / 2 < r then f + 1
  else if f % 2 = 0 then f else f + 1

/-- Render a number of hundredths as a fixed-point numeral with two digits
after the decimal point. -/
def natTwoDec (c : ℕ) : String :=
  toString (c / 100) ++ "." ++ (if c % 100 < 10 then "0" else "") ++ toString (c % 100)

/-- Two-decimal rendering of a rational, as the Python f-string piece
{value:.2f} produces. -/
def formatTwoDec (q : ℚ) : String :=
  if q < 0 then "-" ++ natTwoDec (rne (-q * 100)).toNat
  else natTwoDec (rne (q * 100)).toNat

/-- Number of halvings needed to bring a natural number below 2^53; the
first argument is recursion fuel (any fuel at least the number itself is
enough).  For n at least 2^53 this is the exponent of the unit in the last
place of the binary64 neighbours of n. -/
def ulpExp : ℕ → ℕ → ℕ
  | 0, _ => 0
  | f + 1, n => if n < 2 ^ 53 then 0 else ulpExp f (n / 2) + 1

/-- Round a natural number to 53 significant bits, ties to even: the
magnitude part of the CPython conversion of an int to a binary64 float. -/
def rnd53 (n : ℕ) : ℕ :=
  if n < 2 ^ 53 then n
  else
    let p := 2 ^ ulpExp n n
    let q := n / p
    let r := n % p
    let q2 := if 2 * r < p then q else if p < 2 * r then q + 1 else if q % 2 = 0 then q else q + 1
    q2 * p

/-- CPython conversion of an int to a binary64 float (PyLong_AsDouble):
the magnitude is rounded to 53 significant bits, ties to even, and the
conversion raises OverflowError (here none) when the rounded magnitude
reaches 2^1024. -/
def floatOfInt (n : ℤ) : Option ℚ :=
  let m := rnd53 n.natAbs
  if m < 2 ^ 1024 then some (if n < 0 then -(m : ℚ) else (m : ℚ)) else none

/-- Value held by the Python variable size_in_bytes: an int before the
first division, the exact rational value of a finite binary64 float after
it. -/
inductive PyNum where
  | intVal (n : ℤ)
  | floatVal (q : ℚ)

/-- Exact value of a PyNum; Python compares an int to the float 1024.0
exactly, without converting the int to float. -/
def toRat : PyNum → ℚ
  | .intVal n => (n : ℚ)
  | .floatVal q => q

/-- Rendering by the format specifier ".2f": an int argument is first
converted to float (which can raise OverflowError); a float argument is
rendered from its exact value, ties to even. -/
def pyFmt2 : PyNum → Option String
  | .intVal n => (floatOfInt n).map formatTwoDec
  | .floatVal q => some (formatTwoDec q)

/-- Python division of size_in_bytes by 1024.0: an int is first converted
to float (which can raise OverflowError); the division itself is exact,
because at every division site the value is at least 1024, so the quotient
is a normal binary64 obtained by an exponent shift. -/
def pyDiv1024 : PyNum → Option ℚ
  | .intVal n => (floatOfInt n).map (fun q => q / 1024)
  | .floatVal q => some (q / 1024)

/-- Loop body of format_size: walk the unit list, returning at the first
unit whose value compares below 1024.0, dividing by 1024.0 otherwise;
after the list is exhausted the value is rendered in TB.  A none result
models an OverflowError escaping format_size. -/
def format_size_go : PyNum → List String → Option String
  | v, [] => (pyFmt2 v).map (fun s => s ++ " TB")
  | v, unit :: rest =>
    if toRat v < 1024 then (pyFmt2 v).map (fun s => s ++ " " ++ unit)
    else
      match pyDiv1024 v with
      | none => none
      | some q => format_size_go (.floatVal q) rest

/-- Embedding of format_size (src/app.py lines 22 to 28): the for loop runs
over the units B, KB, MB, GB and falls through to TB; the argument starts
as a Python int and becomes a float at the first division or at
formatting. -/
def format_size (size_in_bytes : ℤ) : Option String :=
  format_size_go (.intVal size_in_bytes) ["B", "KB", "MB", "GB"]

/-- Index of the last occurrence of a character in a list, none if absent. -/
def rfindAux (c : Char) : List Char → Option ℕ
  | [] => none
  | x :: xs =>
    match rfindAux c xs with
    | some i => some (i + 1)
    | none => if x = c then some 0 else none

/-- Python str.rfind: index of the last occurrence, -1 if absent. -/
def rfindIdx (c : Char) (l : List Char) : ℤ :=
  match rfindAux c l with
  | some i => (i : ℤ)
  | none => -1

/-- Extension component of os.path.splitext as called on line 33 of
src/app.py (CPython posixpath._splitext with sep = '/' and extsep = '.'):
the extension starts at the last dot, provided that dot lies after the last
separator and at least one non-dot character precedes it inside the
basename; leading dots of the basename never start an extension. -/
def splitext_ext (p : String) : String :=
  let l := p.data
  let sepIndex : ℤ := rfindIdx '/' l
  let dotIndex : ℤ := rfindIdx '.' l
  if sepIndex < dotIndex then
    if ((l.drop (sepIndex + 1).toNat).take (dotIndex - (sepIndex + 1)).toNat).any
        (fun c => c ≠ '.') then
      String.mk (l.drop dotIndex.toNat)
    else ""
  else ""

/-- Uploaded file handle: declared name, raw bytes, declared byte size. -/
structure UploadedItem where
  name : String
  content : List UInt8
  size : ℕ
deriving DecidableEq

/-- Result object of the engine: text_content may be absent (Python None). -/
structure EngineResult where
  text_content : Option String
deriving DecidableEq

/-- Behaviour oracle for one call of the external conversion engine: it
either raises with a message or returns a result object (possibly None). -/
inductive EngineBehavior where
  | raises (msg : String)
  | returns (result : Option EngineResult)
deriving DecidableEq

/-- Behaviour oracle for the filesystem during staging: tempfile creation
either succeeds, yielding a fresh base path the suffix is appended to, or
raises with a message. -/
inductive StagingBehavior where
  | ok (base : String)
  | raises (msg : String)
deriving DecidableEq

/-- Per-item external behaviour: staging outcome, engine outcome, and
whether os.remove raises during cleanup. -/
structure ItemEnv where
  staging : StagingBehavior
  engine : EngineBehavior
  removeRaises : Bool
deriving DecidableEq

/-- Embedding of save_uploaded_file (src/app.py lines 30 to 39): on success
the temp file name carries the suffix derived from the declared name via
os.path.splitext; on an exception the function shows an error message built
from the exception text and returns None.  The second component collects
the messages displayed via st.error. -/
def save_uploaded_file (uploaded_file : UploadedItem) (stg : StagingBehavior) :
    Option String × List String :=
  match stg with
  | .ok base => (some (base ++ splitext_ext uploaded_file.name), [])
  | .raises e => (none, ["System Error: Could not save file. Details: " ++ e])

/-- Embedding of convert_file (src/app.py lines 41 to 49): an engine raise
is caught and its message returned; a None result object or a None
text_content yields the fixed no-text message; otherwise the text_content
is returned as a success, even when it is the empty string (only None is
checked). -/
def convert_file (file_path : String) (engine : EngineBehavior) : Bool × String :=
  match engine with
  | .raises e => (false, e)
  | .returns none => (false, "The converter returned no text. File might be empty/image-only.")
  | .returns (some result) =>
    match result.text_content with
    | none => (false, "The converter returned no text. File might be empty/image-only.")
    | some t => (true, t)

/-- Size metrics computed in the success branch of the main loop. -/
structure SizeReport where
  original_bytes : ℕ
  converted_bytes : ℕ
  original_fmt : Option String
  converted_fmt : Option String
  reduction_pct : ℚ
deriving DecidableEq

/-- Embedding of the size calculations (src/app.py lines 85 to 97):
converted_bytes is the UTF-8 encoded byte length of the output text, and
reduction_pct guards the division by a zero original size. -/
def mkReport (uploaded_file : UploadedItem) (output_text : String) : SizeReport :=
  let original_bytes := uploaded_file.size
  let converted_bytes := output_text.utf8ByteSize
  { original_bytes := original_bytes
    converted_bytes := converted_bytes
    original_fmt := format_size (original_bytes : ℤ)
    converted_fmt := format_size (converted_bytes : ℤ)
    reduction_pct :=
      if 0 < original_bytes then
        (((original_bytes : ℚ) - (converted_bytes : ℚ)) / (original_bytes : ℚ)) * 100
      else 0 }

/-- Observable side-effect trace of one item: staging was attempted, the
engine was called, os.remove was called. -/
inductive Event where
  | stageAttempt
  | convertCall
  | removeCall
deriving DecidableEq

/-- Per-item outcome: staging failed (with the displayed error messages),
conversion failed (with the displayed message), or conversion succeeded
(with the output text and the size report). -/
inductive ConvOutcome where
  | stagingError (displayed : List String)
  | failure (msg : String)
  | success (text : String) (report : SizeReport)
deriving DecidableEq

/-- Result of processing one queue entry. -/
structure ItemResult where
  name : String
  outcome : ConvOutcome
  events : List Event
deriving DecidableEq

/-- Embedding of one iteration of the main loop (src/app.py lines 66 to 97):
stage the upload; if the returned path is truthy, convert, then call
os.remove inside a try block with a bare except (so env.removeRaises cannot
influence the result), then branch on the success flag. -/
def processItem (uploaded_file : UploadedItem) (env : ItemEnv) : ItemResult :=
  match save_uploaded_file uploaded_file env.staging with
  | (some temp_path, _) =>
    if temp_path = "" then
      { name := uploaded_file.name, outcome := .stagingError [], events := [.stageAttempt] }
    else
      let r := convert_file temp_path env.engine
      { name := uploaded_file.name
        outcome := if r.1 then .success r.2 (mkReport uploaded_file r.2) else .failure r.2
        events := [.stageAttempt, .convertCall, .removeCall] }
  | (none, errs) =>
    { name := uploaded_file.name, outcome := .stagingError errs, events := [.stageAttempt] }

/-- Embedding of the whole queue loop: items are processed strictly in
order, one result per item. -/
def process (batch : List (UploadedItem × ItemEnv)) : List ItemResult :=
  batch.map (fun x => processItem x.1 x.2)

/-- Projection of the optional size report out of an outcome. -/
def outcomeReport : ConvOutcome → Option SizeReport
  | .success _ report => some report
  | _ => none

/-- C1 counterexample: the engine completing with an empty-string payload is
NOT normalized to Failure — convert_file returns a success carrying the empty
text — and the sentinel message the adapter does produce for an absent
payload differs from the one the claim states. -/
theorem claim1_cex :
    convert_file "stub.docx" (EngineBehavior.returns (some ⟨some ""⟩)) = (true, "") ∧
    convert_file "stub.docx" (EngineBehavior.returns (some ⟨some ""⟩)) ≠
      (false, "The converter returned no text. The file might be empty or image-only.") ∧
    convert_file "stub.docx" (EngineBehavior.returns none) =
      (false, "The converter returned no text. File might be empty/image-only.") ∧
    "The converter returned no text. File might be empty/image-only." ≠
      "The converter returned no text. The file might be empty or image-only." := by
  refine ⟨rfl, ?_, rfl, ?_⟩ <;> decide

/-- C1 amended: when the engine completes and the result object is absent or
its text_content is absent (Python None), convert_file returns Failure with
exactly the message "The converter returned no text. File might be
empty/image-only."; an engine returning a present string, including the
empty string, yields Success carrying that string verbatim. -/
theorem claim1_amended :
    (∀ (file_path : String) (eb : EngineBehavior),
      (eb = EngineBehavior.returns none ∨
        ∃ er, eb = EngineBehavior.returns (some er) ∧ er.text_content = none) →
      convert_file file_path eb =
        (false, "The converter returned no text. File might be empty/image-only.")) ∧
    (∀ (file_path text : String),
      convert_file file_path (EngineBehavior.returns (some ⟨some text⟩)) = (true, text)) := by
  constructor
  · rintro p eb (rfl | ⟨⟨tc⟩, rfl, h⟩)
    · rfl
    · cases h
      rfl
  · intro p t
    rfl

/-- C1 amended, witness at concrete inputs. -/
theorem claim1_amended_witness :
    convert_file "stub.docx" (EngineBehavior.returns none) =
      (false, "The converter returned no text. File might be empty/image-only.") ∧
    convert_file "stub.docx" (EngineBehavior.returns (some ⟨none⟩)) =
      (false, "The converter returned no text. File might be empty/image-only.") ∧
    convert_file "stub.docx" (EngineBehavior.returns (some ⟨some "hello"⟩)) = (true, "hello") :=
  ⟨claim1_amended.1 "stub.docx" _ (Or.inl rfl),
   claim1_amended.1 "stub.docx" _ (Or.inr ⟨⟨none⟩, rfl, rfl⟩),
   claim1_amended.2 "stub.docx" "hello"⟩

/-- C3 counterexample: when staging raises, the message shown for the item
is built from the exception text and is not the fixed sentence the claim
states. -/
theorem claim3_cex :
    (processItem ⟨"report.docx", [1, 2], 5⟩
        ⟨StagingBehavior.raises "disk full", EngineBehavior.raises "unused", false⟩).outcome =
      ConvOutcome.stagingError ["System Error: Could not save file. Details: disk full"] ∧
    "System Error: Could not save file. Details: disk full" ≠
      "System error: could not save temporary file." := by
  exact ⟨rfl, by decide⟩

/-- C3 amended: for every item whose staging raises with message e, the
orchestrator emits for that item a staging failure carrying exactly the
message "System Error: Could not save file. Details: " followed by e, does
not call the engine and does not call os.remove for that item, and advances
to the next item. -/
theorem claim3_amended : ∀ (item : UploadedItem) (eng : EngineBehavior) (b : Bool)
    (e : String) (stg : StagingBehavior), stg = StagingBehavior.raises e →
    processItem item ⟨stg, eng, b⟩ =
      { name := item.name
        outcome := ConvOutcome.stagingError
          ["System Error: Could not save file. Details: " ++ e]
        events := [Event.stageAttempt] } ∧
    Event.convertCall ∉ (processItem item ⟨stg, eng, b⟩).events ∧
    Event.removeCall ∉ (processItem item ⟨stg, eng, b⟩).events := by
  rintro item eng b e stg rfl
  refine ⟨rfl, ?_, ?_⟩ <;> simp [processItem, save_uploaded_file]

/-- C3 amended, witness at a concrete staging failure. -/
theorem claim3_amended_witness :
    processItem ⟨"report.docx", [1, 2], 5⟩
        ⟨StagingBehavior.raises "disk full", EngineBehavior.raises "unused", false⟩ =
      { name := "report.docx"
        outcome := ConvOutcome.stagingError
          ["System Error: Could not save file. Details: " ++ "disk full"]
        events := [Event.stageAttempt] } ∧
    Event.convertCall ∉ (processItem ⟨"report.docx", [1, 2], 5⟩
        ⟨StagingBehavior.raises "disk full", EngineBehavior.raises "unused", false⟩).events ∧
    Event.removeCall ∉ (processItem ⟨"report.docx", [1, 2], 5⟩
        ⟨StagingBehavior.raises "disk full", EngineBehavior.raises "unused", false⟩).events :=
  claim3_amended ⟨"report.docx", [1, 2], 5⟩ (EngineBehavior.raises "unused") false
    "disk full" _ rfl

/-- C4: process yields exactly one result per input item, the length of the
outcome matches the batch, and the result of any item is computed by
processItem from that item alone, so a failure on one item never disturbs
the results of the items around it. -/
theorem claim4_batch_shape :
    (∀ batch : List (UploadedItem × ItemEnv), (process batch).length = batch.length) ∧
    (∀ (l1 : List (UploadedItem × ItemEnv)) (x : UploadedItem × ItemEnv)
      (l2 : List (UploadedItem × ItemEnv)),
      process (l1 ++ x :: l2) = process l1 ++ processItem x.1 x.2 :: process l2) := by
  constructor
  · intro batch
    simp [process]
  · intro l1 x l2
    simp [process]

/-- C5: an engine raise with message m is caught by convert_file and
surfaced as a failure whose message is exactly m, unwrapped. -/
theorem claim5_engine_message_verbatim :
    ∀ (file_path m : String),
      convert_file file_path (EngineBehavior.raises m) = (false, m) := by
  intro p m
  rfl

/-- C6: for every item whose staging succeeds (the temp path is truthy),
the event trace shows os.remove called exactly once, after the engine call,
whatever the engine outcome; and the bare-except around os.remove makes the
whole item result independent of whether the deletion raises. -/
theorem claim6_cleanup : ∀ (item : UploadedItem) (eng : EngineBehavior) (b1 b2 : Bool)
    (base : String), base ++ splitext_ext item.name ≠ "" →
    (processItem item ⟨StagingBehavior.ok base, eng, b1⟩).events =
      [Event.stageAttempt, Event.convertCall, Event.removeCall] ∧
    (processItem item ⟨StagingBehavior.ok base, eng, b1⟩).events.count Event.removeCall = 1 ∧
    processItem item ⟨StagingBehavior.ok base, eng, b1⟩ =
      processItem item ⟨StagingBehavior.ok base, eng, b2⟩ := by
  intro item eng b1 b2 base h
  refine ⟨?_, ?_, ?_⟩ <;> simp [processItem, save_uploaded_file, h]

/-- C6 witness: a concrete successfully staged item, with the deletion
raising in one run and succeeding in the other. -/
theorem claim6_cleanup_witness :
    (processItem ⟨"a.txt", [104], 5⟩
        ⟨StagingBehavior.ok "T", EngineBehavior.returns (some ⟨some "hi"⟩), false⟩).events =
      [Event.stageAttempt, Event.convertCall, Event.removeCall] ∧
    (processItem ⟨"a.txt", [104], 5⟩
        ⟨StagingBehavior.ok "T", EngineBehavior.returns (some ⟨some "hi"⟩),
          false⟩).events.count Event.removeCall = 1 ∧
    processItem ⟨"a.txt", [104], 5⟩
        ⟨StagingBehavior.ok "T", EngineBehavior.returns (some ⟨some "hi"⟩), false⟩ =
      processItem ⟨"a.txt", [104], 5⟩
        ⟨StagingBehavior.ok "T", EngineBehavior.returns (some ⟨some "hi"⟩), true⟩ :=
  claim6_cleanup ⟨"a.txt", [104], 5⟩ (EngineBehavior.returns (some ⟨some "hi"⟩))
    false true "T" (by decide)

/-- C7: for every successful conversion the report carries the reduction
percentage (original minus converted over original, times 100) when the
original size is positive and 0 when the original size is 0; on a concrete
item whose converted text is larger than the original the percentage is the
negative value -100, which is produced as ordinary output. -/
theorem claim7_reduction :
    (∀ (item : UploadedItem) (b : Bool) (base text : String),
      base ++ splitext_ext item.name ≠ "" →
      (processItem item ⟨StagingBehavior.ok base,
          EngineBehavior.returns (some ⟨some text⟩), b⟩).outcome =
        ConvOutcome.success text (mkReport item text) ∧
      (mkReport item text).reduction_pct =
        (if 0 < item.size then
          (((item.size : ℚ) - (text.utf8ByteSize : ℚ)) / (item.size : ℚ)) * 100
        else 0)) ∧
    (mkReport ⟨"a.txt", [104, 105], 2⟩ "abcd").reduction_pct = -100 ∧
    (mkReport ⟨"a.txt", [104, 105], 2⟩ "abcd").reduction_pct < 0 ∧
    (mkReport ⟨"empty.txt", [], 0⟩ "xy").reduction_pct = 0 := by
  refine ⟨?_, ?_, ?_, ?_⟩
  · intro item b base text h
    exact ⟨by simp [processItem, save_uploaded_file, convert_file, h], rfl⟩
  · have h4 : ("abcd" : String).utf8ByteSize = 4 := rfl
    norm_num [mkReport, h4]
  · have h4 : ("abcd" : String).utf8ByteSize = 4 := rfl
    norm_num [mkReport, h4]
  · norm_num [mkReport]

/-- C7 witness: a concrete successful conversion with positive original
size. -/
theorem claim7_reduction_witness :
    (processItem ⟨"a.txt", [104, 105], 2⟩
        ⟨StagingBehavior.ok "T", EngineBehavior.returns (some ⟨some "abcd"⟩), false⟩).outcome =
      ConvOutcome.success "abcd" (mkReport ⟨"a.txt", [104, 105], 2⟩ "abcd") ∧
    (mkReport ⟨"a.txt", [104, 105], 2⟩ "abcd").reduction_pct =
      (if 0 < (2 : ℕ) then
        (((2 : ℕ) : ℚ) - (("abcd" : String).utf8ByteSize : ℚ)) / ((2 : ℕ) : ℚ) * 100
      else 0) :=
  claim7_reduction.1 ⟨"a.txt", [104, 105], 2⟩ false "T" "abcd" (by decide)

/-- C8: for every successful conversion the report field converted_bytes is
the UTF-8 encoded byte length of the converted text; a text of 100
three-byte characters (the euro sign) yields 300 bytes although its
character count is 100. -/
theorem claim8_utf8_bytes :
    (∀ (item : UploadedItem) (b : Bool) (base text : String),
      base ++ splitext_ext item.name ≠ "" →
      outcomeReport (processItem item ⟨StagingBehavior.ok base,
          EngineBehavior.returns (some ⟨some text⟩), b⟩).outcome =
        some (mkReport item text) ∧
      (mkReport item text).converted_bytes = text.utf8ByteSize) ∧
    (mkReport ⟨"doc.pdf", [], 500⟩ (String.mk (List.replicate 100 '€'))).converted_bytes =
      300 ∧
    (String.mk (List.replicate 100 '€')).length = 100 := by
  refine ⟨?_, by decide, by decide⟩
  intro item b base text h
  exact ⟨by simp [processItem, save_uploaded_file, convert_file, outcomeReport, h], rfl⟩

/-- C8 witness: a concrete successful conversion whose text is multi-byte. -/
theorem claim8_utf8_bytes_witness :
    outcomeReport (processItem ⟨"doc.pdf", [], 500⟩
        ⟨StagingBehavior.ok "T",
          EngineBehavior.returns (some ⟨some (String.mk (List.replicate 100 '€'))⟩),
          false⟩).outcome =
      some (mkReport ⟨"doc.pdf", [], 500⟩ (String.mk (List.replicate 100 '€'))) ∧
    (mkReport ⟨"doc.pdf", [], 500⟩ (String.mk (List.replicate 100 '€'))).converted_bytes =
      (String.mk (List.replicate 100 '€')).utf8ByteSize :=
  claim8_utf8_bytes.1 ⟨"doc.pdf", [], 500⟩ false "T"
    (String.mk (List.replicate 100 '€')) (by decide)

/-- Helper: append on strings is associative. -/
theorem str_append_assoc (a b c : String) : a ++ b ++ c = a ++ (b ++ c) := by
  cases a with
  | mk la =>
    cases b with
    | mk lb =>
      cases c with
      | mk lc =>
        show String.mk (la ++ lb ++ lc) = String.mk (la ++ (lb ++ lc))
        rw [List.append_assoc]

theorem ulpExp_of_lt (f n : ℕ) (h : n < 2 ^ 53) : ulpExp f n = 0 := by
  cases f with
  | zero => rfl
  | succ f =>
    rw [ulpExp, if_pos h]

theorem ulpExp_char : ∀ (f n : ℕ), n ≤ f → 2 ^ 53 ≤ n →
    1 ≤ ulpExp f n ∧ 2 ^ (52 + ulpExp f n) ≤ n := by
  intro f
  induction f with
  | zero =>
    intro n hn h
    have h0 : n = 0 := Nat.le_zero.1 hn
    subst h0
    exact absurd h (by decide)
  | succ f ih =>
    intro n hn h
    rw [ulpExp, if_neg (not_lt.2 h)]
    by_cases hh : n / 2 < 2 ^ 53
    · rw [ulpExp_of_lt f _ hh]
      refine ⟨by omega, ?_⟩
      have e : 52 + (0 + 1) = 53 := by norm_num
      rw [e]
      exact h
    · have hf2 : n / 2 ≤ f := by omega
      obtain ⟨h1, h2⟩ := ih (n / 2) hf2 (not_lt.1 hh)
      refine ⟨by omega, ?_⟩
      have e : 52 + (ulpExp f (n / 2) + 1) = (52 + ulpExp f (n / 2)) + 1 := by omega
      rw [e, pow_succ]
      generalize hA : (2 : ℕ) ^ (52 + ulpExp f (n / 2)) = A at h2
      omega

theorem rnd53_of_lt (n : ℕ) (h : n < 2 ^ 53) : rnd53 n = n := by
  unfold rnd53
  rw [if_pos h]

theorem rnd53_pow53 : rnd53 (2 ^ 53) = 2 ^ 53 := by decide

theorem rnd53_ge (n : ℕ) (h : 2 ^ 53 ≤ n) : 2 ^ 53 ≤ rnd53 n := by
  rw [rnd53, if_neg (not_lt.2 h)]
  obtain ⟨h1, h2⟩ := ulpExp_char n n le_rfl h
  have hq : 2 ^ 52 ≤ n / 2 ^ ulpExp n n := by
    rw [Nat.le_div_iff_mul_le (by positivity)]
    calc 2 ^ 52 * 2 ^ ulpExp n n = 2 ^ (52 + ulpExp n n) := by rw [pow_add]
      _ ≤ n := h2
  have hp : 2 ≤ 2 ^ ulpExp n n := by
    calc 2 = 2 ^ 1 := (pow_one 2).symm
      _ ≤ 2 ^ ulpExp n n := Nat.pow_le_pow_right (by norm_num) h1
  have hstep : n / 2 ^ ulpExp n n * 2 ^ ulpExp n n ≤
      (if 2 * (n % 2 ^ ulpExp n n) < 2 ^ ulpExp n n then n / 2 ^ ulpExp n n
       else if 2 ^ ulpExp n n < 2 * (n % 2 ^ ulpExp n n) then n / 2 ^ ulpExp n n + 1
       else if n / 2 ^ ulpExp n n % 2 = 0 then n / 2 ^ ulpExp n n
       else n / 2 ^ ulpExp n n + 1) * 2 ^ ulpExp n n := by
    split_ifs <;> exact Nat.mul_le_mul_right _ (by omega)
  calc 2 ^ 53 = 2 ^ 52 * 2 := by norm_num
    _ ≤ n / 2 ^ ulpExp n n * 2 ^ ulpExp n n := Nat.mul_le_mul hq hp
    _ ≤ _ := hstep

theorem floatOfInt_exact (n : ℤ) (h : n.natAbs ≤ 2 ^ 53) : floatOfInt n = some (n : ℚ) := by
  have hr : rnd53 n.natAbs = n.natAbs := by
    rcases lt_or_eq_of_le h with hlt | heq
    · exact rnd53_of_lt _ hlt
    · rw [heq]
      exact rnd53_pow53
  simp only [floatOfInt]
  rw [hr, if_pos (lt_of_le_of_lt h (by norm_num))]
  rcases lt_or_le n 0 with hn | hn
  · rw [if_pos hn]
    congr 1
    rw [Int.cast_natAbs, abs_of_neg hn]
    push_cast
    ring
  · rw [if_neg (not_lt.2 hn)]
    congr 1
    rw [Int.cast_natAbs, abs_of_nonneg hn]

theorem floatOfInt_pos (n : ℕ) :
    floatOfInt (n : ℤ) = if rnd53 n < 2 ^ 1024 then some ((rnd53 n : ℕ) : ℚ) else none := by
  have hnn : ¬ ((n : ℤ) < 0) := not_lt.2 (Int.natCast_nonneg n)
  simp only [floatOfInt, Int.natAbs_ofNat, if_neg hnn]

theorem floatOfInt_neg (n : ℕ) (h : 0 < n) :
    floatOfInt (-(n : ℤ)) = if rnd53 n < 2 ^ 1024 then some (-((rnd53 n : ℕ) : ℚ)) else none := by
  have hneg : (-(n : ℤ) < 0) := by
    have h0 : (0 : ℤ) < (n : ℤ) := by exact_mod_cast h
    omega
  simp only [floatOfInt, Int.natAbs_neg, Int.natAbs_ofNat, if_pos hneg]

theorem floatOfInt_tb_ge (n : ℕ) (v : ℚ) (h : floatOfInt (n : ℤ) = some v)
    (hn : 1024 ^ 4 ≤ n) : (1024 : ℚ) ^ 4 ≤ v := by
  rw [floatOfInt_pos] at h
  split_ifs at h with hc
  · have hv : v = ((rnd53 n : ℕ) : ℚ) := (Option.some.inj h).symm
    have hb : (1024 ^ 4 : ℕ) ≤ rnd53 n := by
      by_cases h53 : n < 2 ^ 53
      · rw [rnd53_of_lt _ h53]
        exact hn
      · calc (1024 ^ 4 : ℕ) ≤ 2 ^ 53 := by norm_num
          _ ≤ rnd53 n := rnd53_ge _ (not_lt.1 h53)
    rw [hv]
    exact_mod_cast hb

/-- Helper: the loop returns at the first unit when the int compares below
1024.0, converting the int to float only for formatting. -/
theorem format_size_of_lt (n : ℤ) (h : (n : ℚ) < 1024) :
    format_size n = (floatOfInt n).map (fun v => formatTwoDec v ++ " B") := by
  have sb : (" " ++ "B" : String) = " B" := by decide
  cases hf : floatOfInt n with
  | none => simp [format_size, format_size_go, toRat, pyFmt2, h, hf]
  | some v =>
    simp [format_size, format_size_go, toRat, pyFmt2, h, hf]
    rw [str_append_assoc, sb]

/-- Helper: the loop returns at the KB unit on the second pass, the value
having become the float conversion of the int divided by 1024. -/
theorem format_size_kb (n : ℤ) (v : ℚ) (h1 : ¬ (n : ℚ) < 1024)
    (hf : floatOfInt n = some v) (h2 : v / 1024 < 1024) :
    format_size n = some (formatTwoDec (v / 1024) ++ " KB") := by
  have sb : (" " ++ "KB" : String) = " KB" := by decide
  simp [format_size, format_size_go, toRat, pyFmt2, pyDiv1024, h1, hf, h2]
  rw [str_append_assoc, sb]

/-- Helper: the loop returns at the MB unit on the third pass. -/
theorem format_size_mb (n : ℤ) (v : ℚ) (h1 : ¬ (n : ℚ) < 1024)
    (hf : floatOfInt n = some v) (h2 : ¬ v / 1024 < 1024) (h3 : v / 1024 / 1024 < 1024) :
    format_size n = some (formatTwoDec (v / 1024 ^ 2) ++ " MB") := by
  have e : v / 1024 / 1024 = v / 1024 ^ 2 := by
    rw [div_div]
    norm_num
  have sb : (" " ++ "MB" : String) = " MB" := by decide
  simp [format_size, format_size_go, toRat, pyFmt2, pyDiv1024, h1, hf, h2, h3]
  rw [e, str_append_assoc, sb]

/-- Helper: the loop returns at the GB unit on the fourth pass. -/
theorem format_size_gb (n : ℤ) (v : ℚ) (h1 : ¬ (n : ℚ) < 1024)
    (hf : floatOfInt n = some v) (h2 : ¬ v / 1024 < 1024) (h3 : ¬ v / 1024 / 1024 < 1024)
    (h4 : v / 1024 / 1024 / 1024 < 1024) :
    format_size n = some (formatTwoDec (v / 1024 ^ 3) ++ " GB") := by
  have e : v / 1024 / 1024 / 1024 = v / 1024 ^ 3 := by
    rw [div_div, div_div]
    norm_num
  have sb : (" " ++ "GB" : String) = " GB" := by decide
  simp [format_size, format_size_go, toRat, pyFmt2, pyDiv1024, h1, hf, h2, h3, h4]
  rw [e, str_append_assoc, sb]

/-- Helper: after the four units are exhausted the float value is rendered
in TB whatever its magnitude. -/
theorem format_size_tb (n : ℤ) (v : ℚ) (h1 : ¬ (n : ℚ) < 1024)
    (hf : floatOfInt n = some v) (h2 : ¬ v / 1024 < 1024) (h3 : ¬ v / 1024 / 1024 < 1024)
    (h4 : ¬ v / 1024 / 1024 / 1024 < 1024) :
    format_size n = some (formatTwoDec (v / 1024 ^ 4) ++ " TB") := by
  have e : v / 1024 / 1024 / 1024 / 1024 = v / 1024 ^ 4 := by
    rw [div_div, div_div, div_div]
    norm_num
  simp [format_size, format_size_go, toRat, pyFmt2, pyDiv1024, h1, hf, h2, h3, h4]
  rw [e]

/-- Helper: an overflowing conversion escapes format_size for any int at
least 1024 (the first division raises). -/
theorem format_size_overflow (n : ℤ) (h1 : ¬ (n : ℚ) < 1024) (hf : floatOfInt n = none) :
    format_size n = none := by
  simp [format_size, format_size_go, toRat, pyDiv1024, h1, hf]

theorem div_chain2 (x : ℚ) : x / 1024 / 1024 = x / 1024 ^ 2 := by
  rw [div_div]
  norm_num

theorem div_chain3 (x : ℚ) : x / 1024 / 1024 / 1024 = x / 1024 ^ 3 := by
  rw [div_div, div_div]
  norm_num

set_option maxRecDepth 100000 in
/-- C2 counterexample: at 2^55 + 5497558139 the int is rounded to binary64
before any scaling, so the program prints "32768.00 TB", while scaling the
integer itself by 1024^4 and rounding to two decimals gives "32768.01 TB";
and at 2^1100 the conversion to float overflows, so format_size raises
instead of returning a TB string. -/
theorem claim2_cex :
    format_size ((2 : ℤ) ^ 55 + 5497558139) = some "32768.00 TB" ∧
    formatTwoDec ((((2 : ℤ) ^ 55 + 5497558139 : ℤ) : ℚ) / 1024 ^ 4) ++ " TB" =
      "32768.01 TB" ∧
    ("32768.00 TB" : String) ≠ "32768.01 TB" ∧
    format_size ((2 : ℤ) ^ 1100) = none := by
  refine ⟨?_, ?_, by decide, ?_⟩
  · have hcast : ((2 : ℤ) ^ 55 + 5497558139) = ((2 ^ 55 + 5497558139 : ℕ) : ℤ) := by
      norm_num
    have hr : rnd53 (2 ^ 55 + 5497558139) = 2 ^ 55 + 5497558136 := by decide
    have hf : floatOfInt ((2 ^ 55 + 5497558139 : ℕ) : ℤ) =
        some ((2 ^ 55 + 5497558136 : ℕ) : ℚ) := by
      rw [floatOfInt_pos, hr, if_pos (by norm_num)]
    have h1 : ¬ ((((2 ^ 55 + 5497558139 : ℕ) : ℤ)) : ℚ) < 1024 := by
      push_cast
      norm_num
    have h2 : ¬ ((2 ^ 55 + 5497558136 : ℕ) : ℚ) / 1024 < 1024 := by
      push_cast
      norm_num
    have h3 : ¬ ((2 ^ 55 + 5497558136 : ℕ) : ℚ) / 1024 / 1024 < 1024 := by
      push_cast
      norm_num
    have h4 : ¬ ((2 ^ 55 + 5497558136 : ℕ) : ℚ) / 1024 / 1024 / 1024 < 1024 := by
      push_cast
      norm_num
    rw [hcast, format_size_tb _ _ h1 hf h2 h3 h4]
    norm_num [formatTwoDec, rne, natTwoDec]
    decide
  · norm_num [formatTwoDec, rne, natTwoDec]
    decide
  · have hcast : ((2 : ℤ) ^ 1100) = ((2 ^ 1100 : ℕ) : ℤ) := by
      push_cast
      rfl
    have hnone : floatOfInt ((2 ^ 1100 : ℕ) : ℤ) = none := by
      rw [floatOfInt_pos, if_neg (by decide)]
    have h1 : ¬ (((2 ^ 1100 : ℕ) : ℤ) : ℚ) < 1024 := by
      push_cast
      rw [not_lt]
      calc (1024 : ℚ) = 2 ^ 10 := by norm_num
        _ ≤ 2 ^ 1100 := by
          apply pow_le_pow_right <;> norm_num
    rw [hcast, format_size_overflow _ h1 hnone]

/-- C2 amended: format_size scales by repeated division by 1024 into the
largest unit among B, KB, MB, GB whose scaled value is below 1024, and
from 1024^4 upward the unit is TB with no further scaling; below 1024^4
the arithmetic is exact, while in the TB range the displayed value is the
binary64 conversion of n (rounded to 53 bits, ties to even) divided by
1024^4, and an n whose conversion overflows makes format_size raise
OverflowError instead of returning a string; the five concrete sample
values render as stated. -/
theorem claim2_format_size :
    (∀ n : ℕ, n < 1024 → format_size (n : ℤ) = some (formatTwoDec (n : ℚ) ++ " B")) ∧
    (∀ n : ℕ, 1024 ≤ n → n < 1024 ^ 2 →
      format_size (n : ℤ) = some (formatTwoDec ((n : ℚ) / 1024) ++ " KB")) ∧
    (∀ n : ℕ, 1024 ^ 2 ≤ n → n < 1024 ^ 3 →
      format_size (n : ℤ) = some (formatTwoDec ((n : ℚ) / 1024 ^ 2) ++ " MB")) ∧
    (∀ n : ℕ, 1024 ^ 3 ≤ n → n < 1024 ^ 4 →
      format_size (n : ℤ) = some (formatTwoDec ((n : ℚ) / 1024 ^ 3) ++ " GB")) ∧
    (∀ n : ℕ, 1024 ^ 4 ≤ n →
      format_size (n : ℤ) =
        (floatOfInt (n : ℤ)).map (fun v => formatTwoDec (v / 1024 ^ 4) ++ " TB")) ∧
    format_size 0 = some "0.00 B" ∧
    format_size 1024 = some "1.00 KB" ∧
    format_size 1536 = some "1.50 KB" ∧
    format_size (1024 ^ 4) = some "1.00 TB" ∧
    format_size (1024 ^ 5) = some "1024.00 TB" := by
  have p1 : (0 : ℚ) < 1024 := by norm_num
  have p2 : (0 : ℚ) < 1024 ^ 2 := by norm_num
  have p3 : (0 : ℚ) < 1024 ^ 3 := by norm_num
  have m1 : (1024 : ℚ) * 1024 = 1024 ^ 2 := by norm_num
  have m2 : (1024 : ℚ) * 1024 ^ 2 = 1024 ^ 3 := by norm_num
  have m3 : (1024 : ℚ) * 1024 ^ 3 = 1024 ^ 4 := by norm_num
  have b2 : (1024 : ℚ) ≤ 1024 ^ 2 := by norm_num
  have b3 : (1024 : ℚ) ≤ 1024 ^ 3 := by norm_num
  have b4 : (1024 : ℚ) ≤ 1024 ^ 4 := by norm_num
  have b23 : (1024 : ℚ) ^ 2 ≤ 1024 ^ 3 := by norm_num
  have b34 : (1024 : ℚ) ^ 3 ≤ 1024 ^ 4 := by norm_num
  have hexact : ∀ n : ℕ, n ≤ 2 ^ 53 → floatOfInt ((n : ℕ) : ℤ) = some ((n : ℚ)) := by
    intro n hn
    have hna : ((n : ℕ) : ℤ).natAbs ≤ 2 ^ 53 := by
      rw [Int.natAbs_ofNat]
      exact hn
    have ec : (((n : ℕ) : ℤ) : ℚ) = (n : ℚ) := by push_cast; rfl
    rw [floatOfInt_exact _ hna, ec]
  refine ⟨?_, ?_, ?_, ?_, ?_, ?_, ?_, ?_, ?_, ?_⟩
  · intro n h
    have h1 : (((n : ℕ) : ℤ) : ℚ) < 1024 := by
      push_cast
      exact_mod_cast h
    rw [format_size_of_lt _ h1, hexact n (by norm_num; omega)]
    rfl
  · intro n h1 h2
    have c1 : (1024 : ℚ) ≤ (n : ℚ) := by exact_mod_cast h1
    have c2 : (n : ℚ) < 1024 ^ 2 := by exact_mod_cast h2
    have hf := hexact n (by norm_num at h2 ⊢; omega)
    refine format_size_kb _ _ (by push_cast; exact not_lt.2 c1) hf ?_
    rw [div_lt_iff p1]
    linarith
  · intro n h1 h2
    have c1 : (1024 : ℚ) ^ 2 ≤ (n : ℚ) := by exact_mod_cast h1
    have c2 : (n : ℚ) < 1024 ^ 3 := by exact_mod_cast h2
    have hf := hexact n (by norm_num at h2 ⊢; omega)
    refine format_size_mb _ _ (by push_cast; rw [not_lt]; linarith) hf ?_ ?_
    · rw [not_lt, le_div_iff p1]
      linarith
    · rw [div_chain2, div_lt_iff p2]
      linarith
  · intro n h1 h2
    have c1 : (1024 : ℚ) ^ 3 ≤ (n : ℚ) := by exact_mod_cast h1
    have c2 : (n : ℚ) < 1024 ^ 4 := by exact_mod_cast h2
    have hf := hexact n (by norm_num at h2 ⊢; omega)
    refine format_size_gb _ _ (by push_cast; rw [not_lt]; linarith) hf ?_ ?_ ?_
    · rw [not_lt, le_div_iff p1]
      linarith
    · rw [not_lt, div_chain2, le_div_iff p2]
      linarith
    · rw [div_chain3, div_lt_iff p3]
      linarith
  · intro n h1
    have c1 : (1024 : ℚ) ^ 4 ≤ (n : ℚ) := by exact_mod_cast h1
    have hnlt : ¬ (((n : ℕ) : ℤ) : ℚ) < 1024 := by
      push_cast
      rw [not_lt]
      linarith
    cases hf : floatOfInt ((n : ℕ) : ℤ) with
    | none =>
      rw [format_size_overflow _ hnlt hf]
      rfl
    | some v =>
      have hv : (1024 : ℚ) ^ 4 ≤ v := floatOfInt_tb_ge n v hf h1
      have h2 : ¬ v / 1024 < 1024 := by
        rw [not_lt, le_div_iff p1]
        linarith
      have h3 : ¬ v / 1024 / 1024 < 1024 := by
        rw [not_lt, div_chain2, le_div_iff p2]
        linarith
      have h4 : ¬ v / 1024 / 1024 / 1024 < 1024 := by
        rw [not_lt, div_chain3, le_div_iff p3]
        linarith
      rw [format_size_tb _ v hnlt hf h2 h3 h4]
      rfl
  · rw [format_size_of_lt 0 (by norm_num), floatOfInt_exact 0 (by decide)]
    norm_num [formatTwoDec, rne, natTwoDec]
    decide
  · have hf : floatOfInt (1024 : ℤ) = some ((1024 : ℤ) : ℚ) :=
      floatOfInt_exact _ (by decide)
    rw [format_size_kb 1024 ((1024 : ℤ) : ℚ) (by norm_num) hf (by norm_num)]
    norm_num [formatTwoDec, rne, natTwoDec]
    decide
  · have hf : floatOfInt (1536 : ℤ) = some ((1536 : ℤ) : ℚ) :=
      floatOfInt_exact _ (by decide)
    rw [format_size_kb 1536 ((1536 : ℤ) : ℚ) (by norm_num) hf (by norm_num)]
    norm_num [formatTwoDec, rne, natTwoDec]
    decide
  · have hf : floatOfInt (1024 ^ 4 : ℤ) = some ((1024 ^ 4 : ℤ) : ℚ) :=
      floatOfInt_exact _ (by norm_num [Int.natAbs_pow])
    rw [format_size_tb (1024 ^ 4) ((1024 ^ 4 : ℤ) : ℚ) (by norm_num) hf
      (by push_cast; norm_num) (by push_cast; norm_num) (by push_cast; norm_num)]
    norm_num [formatTwoDec, rne, natTwoDec]
    decide
  · have hf : floatOfInt (1024 ^ 5 : ℤ) = some ((1024 ^ 5 : ℤ) : ℚ) :=
      floatOfInt_exact _ (by norm_num [Int.natAbs_pow])
    rw [format_size_tb (1024 ^ 5) ((1024 ^ 5 : ℤ) : ℚ) (by norm_num) hf
      (by push_cast; norm_num) (by push_cast; norm_num) (by push_cast; norm_num)]
    norm_num [formatTwoDec, rne, natTwoDec]
    decide

/-- C2 amended, witness: concrete inputs for each hypothesis-bearing
conjunct. -/
theorem claim2_format_size_witness :
    format_size ((5 : ℕ) : ℤ) = some (formatTwoDec ((5 : ℕ) : ℚ) ++ " B") ∧
    format_size ((2048 : ℕ) : ℤ) = some (formatTwoDec (((2048 : ℕ) : ℚ) / 1024) ++ " KB") ∧
    format_size ((1024 ^ 2 : ℕ) : ℤ) =
      some (formatTwoDec (((1024 ^ 2 : ℕ) : ℚ) / 1024 ^ 2) ++ " MB") ∧
    format_size ((1024 ^ 3 : ℕ) : ℤ) =
      some (formatTwoDec (((1024 ^ 3 : ℕ) : ℚ) / 1024 ^ 3) ++ " GB") ∧
    format_size ((1024 ^ 5 : ℕ) : ℤ) =
      (floatOfInt ((1024 ^ 5 : ℕ) : ℤ)).map (fun v => formatTwoDec (v / 1024 ^ 4) ++ " TB") :=
  ⟨claim2_format_size.1 5 (by norm_num),
   claim2_format_size.2.1 2048 (by norm_num) (by norm_num),
   claim2_format_size.2.2.1 (1024 ^ 2) (by norm_num) (by norm_num),
   claim2_format_size.2.2.2.1 (1024 ^ 3) (by norm_num) (by norm_num),
   claim2_format_size.2.2.2.2.1 (1024 ^ 5) (by norm_num)⟩

set_option maxRecDepth 100000 in
/-- C10 counterexample: format_size of -(10^400) raises OverflowError (the
int does not fit a binary64), so it does not return a string; and at
-(2^53 + 1) the int-to-float conversion rounds to -(2^53), so the string
returned renders the rounded value, not n itself. -/
theorem claim10_cex :
    format_size (-((10 : ℤ) ^ 400)) = none ∧
    format_size (-((2 : ℤ) ^ 53 + 1)) = some "-9007199254740992.00 B" ∧
    format_size (-((2 : ℤ) ^ 53 + 1)) ≠
      some (formatTwoDec ((-((2 : ℤ) ^ 53 + 1) : ℤ) : ℚ) ++ " B") := by
  have hcast : (-((2 : ℤ) ^ 53 + 1)) = -((2 ^ 53 + 1 : ℕ) : ℤ) := by norm_num
  have hr : rnd53 (2 ^ 53 + 1) = 2 ^ 53 := by decide
  have hf : floatOfInt (-((2 ^ 53 + 1 : ℕ) : ℤ)) = some (-((2 ^ 53 : ℕ) : ℚ)) := by
    rw [floatOfInt_neg _ (by norm_num), hr, if_pos (by norm_num)]
  have hmain : format_size (-((2 : ℤ) ^ 53 + 1)) = some "-9007199254740992.00 B" := by
    rw [hcast, format_size_of_lt _ (by push_cast; norm_num), hf]
    norm_num [formatTwoDec, rne, natTwoDec]
    decide
  refine ⟨?_, hmain, ?_⟩
  · have hcast2 : (-((10 : ℤ) ^ 400)) = -((10 ^ 400 : ℕ) : ℤ) := by
      push_cast
      rfl
    have hnone : floatOfInt (-((10 ^ 400 : ℕ) : ℤ)) = none := by
      rw [floatOfInt_neg _ (by positivity), if_neg (by decide)]
    have h1 : (((-((10 ^ 400 : ℕ) : ℤ)) : ℤ) : ℚ) < 1024 := by
      push_cast
      have h0 : (0 : ℚ) < 10 ^ 400 := by positivity
      linarith
    rw [hcast2, format_size_of_lt _ h1, hnone]
    rfl
  · rw [hmain, Ne, Option.some_inj]
    norm_num [formatTwoDec, rne, natTwoDec]
    decide

/-- C10 amended: for every negative integer the very first unit check
succeeds (the comparison of the int with the float 1024.0 is exact), so no
scaling happens and, when the int fits a binary64, the result is the
two-decimal rendering of the float conversion of n followed by " B"; for
magnitudes at most 2^53 the conversion is exact, so the string renders n
itself, and format_size of -5 is "-5.00 B"; an n beyond the binary64 range
makes format_size raise OverflowError instead of returning. -/
theorem claim10_negative :
    (∀ n : ℤ, n < 0 →
      format_size n = (floatOfInt n).map (fun v => formatTwoDec v ++ " B")) ∧
    (∀ n : ℤ, n < 0 → -(2 ^ 53) ≤ n →
      format_size n = some (formatTwoDec (n : ℚ) ++ " B")) ∧
    format_size (-5) = some "-5.00 B" := by
  have hgen : ∀ n : ℤ, n < 0 →
      format_size n = (floatOfInt n).map (fun v => formatTwoDec v ++ " B") := by
    intro n h
    refine format_size_of_lt _ ?_
    have hq : (n : ℚ) < 0 := by exact_mod_cast h
    linarith
  refine ⟨hgen, ?_, ?_⟩
  · intro n h1 h2
    have e53 : (2 : ℤ) ^ 53 = 9007199254740992 := by norm_num
    rw [e53] at h2
    have hna : n.natAbs ≤ 2 ^ 53 := by
      have e53n : (2 : ℕ) ^ 53 = 9007199254740992 := by norm_num
      rw [e53n]
      omega
    rw [hgen n h1, floatOfInt_exact n hna]
    rfl
  · rw [hgen (-5) (by norm_num), floatOfInt_exact (-5) (by decide)]
    norm_num [formatTwoDec, rne, natTwoDec]
    decide

/-- C10 amended, witness: the negative input -7 exercises both
hypothesis-bearing conjuncts. -/
theorem claim10_negative_witness :
    format_size (-7) = (floatOfInt (-7)).map (fun v => formatTwoDec v ++ " B") ∧
    format_size (-7) = some (formatTwoDec ((-7 : ℤ) : ℚ) ++ " B") :=
  ⟨claim10_negative.1 (-7) (by norm_num),
   claim10_negative.2.1 (-7) (by norm_num) (by norm_num)⟩

theorem rfindAux_eq_none_iff (c : Char) (l : List Char) : rfindAux c l = none ↔ c ∉ l := by
  induction l with
  | nil => simp [rfindAux]
  | cons x xs ih =>
    rw [rfindAux]
    cases h : rfindAux c xs with
    | some i =>
      have hm : c ∈ xs := by
        by_contra hc
        rw [ih.2 hc] at h
        cases h
      simp [hm]
    | none =>
      have hx : c ∉ xs := ih.1 h
      by_cases he : x = c
      · simp [he]
      · simp [he, hx, Ne.symm he]

theorem rfindAux_lt_length (c : Char) (l : List Char) (i : ℕ) (h : rfindAux c l = some i) :
    i < l.length := by
  induction l generalizing i with
  | nil => simp [rfindAux] at h
  | cons x xs ih =>
    rw [rfindAux] at h
    cases hx : rfindAux c xs with
    | some j =>
      rw [hx] at h
      cases h
      have := ih j hx
      simp
      omega
    | none =>
      rw [hx] at h
      by_cases he : x = c
      · rw [if_pos he] at h
        cases h
        simp
      · rw [if_neg he] at h
        cases h

theorem rfindAux_append_right (c : Char) (l1 l2 : List Char) (i : ℕ)
    (h : rfindAux c l2 = some i) : rfindAux c (l1 ++ l2) = some (l1.length + i) := by
  induction l1 with
  | nil => simpa using h
  | cons x xs ih =>
    rw [List.cons_append, rfindAux, ih]
    simp
    omega

theorem rfindAux_append_not_mem (c : Char) (l1 l2 : List Char) (h : c ∉ l2) :
    rfindAux c (l1 ++ l2) = rfindAux c l1 := by
  induction l1 with
  | nil =>
    rw [List.nil_append, (rfindAux_eq_none_iff c l2).2 h]
    rfl
  | cons x xs ih =>
    rw [List.cons_append, rfindAux, ih]
    rfl

theorem rfindAux_last (c : Char) (pre post : List Char) (h : c ∉ post) :
    rfindAux c (pre ++ c :: post) = some pre.length := by
  have h0 : rfindAux c (c :: post) = some 0 := by
    rw [rfindAux, (rfindAux_eq_none_iff c post).2 h]
    simp
  simpa using rfindAux_append_right c pre (c :: post) 0 h0

theorem rfindAux_decomp (c : Char) (l : List Char) (i : ℕ) (h : rfindAux c l = some i) :
    ∃ l1 l2, l = l1 ++ c :: l2 ∧ l1.length = i ∧ c ∉ l2 := by
  induction l generalizing i with
  | nil => simp [rfindAux] at h
  | cons x xs ih =>
    rw [rfindAux] at h
    cases hx : rfindAux c xs with
    | some j =>
      rw [hx] at h
      cases h
      obtain ⟨l1, l2, e, el, hn⟩ := ih j hx
      exact ⟨x :: l1, l2, by rw [e, List.cons_append], by simp [el], hn⟩
    | none =>
      rw [hx] at h
      by_cases he : x = c
      · rw [if_pos he] at h
        cases h
        exact ⟨[], xs, by rw [he, List.nil_append], rfl, (rfindAux_eq_none_iff c xs).1 hx⟩
      · rw [if_neg he] at h
        cases h

theorem take_len_append {α : Type} (l1 l2 : List α) : (l1 ++ l2).take l1.length = l1 := by
  induction l1 with
  | nil => simp
  | cons x xs ih => simp [ih]

theorem drop_len_append {α : Type} (l1 l2 : List α) : (l1 ++ l2).drop l1.length = l2 := by
  induction l1 with
  | nil => simp
  | cons x xs ih => simp [ih]

theorem drop_cons_len_append {α : Type} (l1 : List α) (a : α) (l2 : List α) :
    (l1 ++ a :: l2).drop (l1.length + 1) = l2 := by
  induction l1 with
  | nil => simp
  | cons x xs ih => simp [ih]

theorem takeWhile_eq_self_of_all {α : Type} (p : α → Bool) (l : List α)
    (h : ∀ x ∈ l, p x = true) : l.takeWhile p = l := by
  induction l with
  | nil => rfl
  | cons x xs ih =>
    rw [List.takeWhile_cons, h x (by simp)]
    simp [ih fun y hy => h y (by simp [hy])]

theorem takeWhile_append_stop {α : Type} (p : α → Bool) (l1 : List α) (a : α) (l2 : List α)
    (h : ∀ x ∈ l1, p x = true) (ha : p a = false) :
    (l1 ++ a :: l2).takeWhile p = l1 := by
  induction l1 with
  | nil => simp [List.takeWhile_cons, ha]
  | cons x xs ih =>
    rw [List.cons_append, List.takeWhile_cons, h x (by simp)]
    simp [ih fun y hy => h y (by simp [hy])]

/-- Helper: the inner extension branch of splitext agrees with the
all-dots phrasing of the leading-dot rule. -/
theorem branch_eq (b : List Char) (post : List Char) :
    (if b.any (fun c => c ≠ '.') then String.mk ('.' :: post) else "") =
      (if ∀ c ∈ b, c = '.' then "" else String.mk ('.' :: post)) := by
  by_cases h : ∀ c ∈ b, c = '.'
  · have hb : b.any (fun c => c ≠ '.') = false := by
      simp only [List.any_eq_false]
      intro x hx
      simpa using h x hx
    rw [hb, if_pos h]
    rfl
  · have hb : b.any (fun c => c ≠ '.') = true := by
      simp only [List.any_eq_true]
      push_neg at h
      obtain ⟨x, hx, hne⟩ := h
      exact ⟨x, hx, by simpa using hne⟩
    rw [hb, if_neg h]
    rfl

/-- C9 counterexample: for the declared name ".txt" the claimed rule gives
the suffix ".txt" (the substring from the last dot), but staging via
os.path.splitext derives the empty suffix, because the only dot is a
leading dot of the basename. -/
theorem claim9_cex :
    splitext_ext ".txt" = "" ∧ splitext_ext ".txt" ≠ ".txt" := by
  exact ⟨by decide, by decide⟩

/-- C9 amended: staging derives the suffix as the substring from the last
dot of the declared name (dot included) provided no separator follows that
dot and the basename part before it is not made of dots alone; a name with
no dot, and a name whose basename consists of leading dots followed by the
final segment (such as ".txt"), yield the empty suffix. -/
theorem claim9_amended : ∀ (name : String),
    ('.' ∉ name.data → splitext_ext name = "") ∧
    (∀ pre post : List Char, name.data = pre ++ '.' :: post → '.' ∉ post → '/' ∉ post →
      splitext_ext name =
        if ∀ c ∈ pre.reverse.takeWhile (fun c => c ≠ '/'), c = '.' then ""
        else String.mk ('.' :: post)) := by
  intro name
  obtain ⟨l⟩ := name
  constructor
  · intro h
    have hd : rfindAux '.' l = none := (rfindAux_eq_none_iff _ _).2 h
    cases hs : rfindAux '/' l with
    | none => simp [splitext_ext, rfindIdx, hd, hs]
    | some s =>
      have hlt : ¬ ((s : ℤ) < -1) := by omega
      simp [splitext_ext, rfindIdx, hd, hs, hlt]
  · intro pre post hl hdot hsep
    simp only at hl
    subst hl
    have hdIdx : rfindAux '.' (pre ++ '.' :: post) = some pre.length :=
      rfindAux_last _ _ _ hdot
    have hsep2 : '/' ∉ ('.' :: post) := by
      intro hmem
      rcases List.mem_cons.1 hmem with h1 | h2
      · exact absurd h1 (by decide)
      · exact hsep h2
    have hsIdx : rfindAux '/' (pre ++ '.' :: post) = rfindAux '/' pre :=
      rfindAux_append_not_mem _ _ _ hsep2
    cases hp : rfindAux '/' pre with
    | none =>
      have hnp : '/' ∉ pre := (rfindAux_eq_none_iff _ _).1 hp
      have hlt : (-1 : ℤ) < (pre.length : ℤ) := by omega
      simp only [splitext_ext, rfindIdx, hdIdx, hsIdx, hp]
      rw [if_pos hlt]
      have e0 : ((-1 : ℤ) + 1).toNat = 0 := by decide
      have e1 : ((pre.length : ℤ) - ((-1 : ℤ) + 1)).toNat = pre.length := by omega
      have e2 : ((pre.length : ℕ) : ℤ).toNat = pre.length := by omega
      rw [e0, e1, e2, List.drop_zero, take_len_append, drop_len_append]
      have htw : List.takeWhile (fun c => decide (c ≠ '/')) pre.reverse = pre.reverse := by
        apply takeWhile_eq_self_of_all
        intro x hx
        have hxp : x ∈ pre := List.mem_reverse.1 hx
        simp only [decide_eq_true_eq]
        intro he
        exact hnp (he ▸ hxp)
      rw [htw]
      have hmr : (∀ c ∈ pre.reverse, c = '.') ↔ (∀ c ∈ pre, c = '.') := by
        constructor
        · intro h c hc
          exact h c (List.mem_reverse.2 hc)
        · intro h c hc
          exact h c (List.mem_reverse.1 hc)
      rw [if_congr hmr rfl rfl]
      exact branch_eq pre post
    | some s =>
      obtain ⟨p1, p2, e, el, hn2⟩ := rfindAux_decomp _ _ _ hp
      subst e
      subst el
      have hlt : ((p1.length : ℕ) : ℤ) < (((p1 ++ '/' :: p2).length : ℕ) : ℤ) := by
        simp [List.length_append]
      simp only [splitext_ext, rfindIdx, hdIdx, hsIdx, hp]
      rw [if_pos hlt]
      have e1 : (((p1.length : ℕ) : ℤ) + 1).toNat = p1.length + 1 := by omega
      have e2 : ((((p1 ++ '/' :: p2).length : ℕ) : ℤ) - (((p1.length : ℕ) : ℤ) + 1)).toNat =
          p2.length := by
        simp only [List.length_append, List.length_cons]
        omega
      have e3 : ((((p1 ++ '/' :: p2).length : ℕ) : ℤ)).toNat = (p1 ++ '/' :: p2).length := by
        omega
      rw [e1, e2, e3, drop_len_append]
      rw [List.append_assoc, List.cons_append, drop_cons_len_append, take_len_append]
      have hrev : (p1 ++ '/' :: p2).reverse = p2.reverse ++ '/' :: p1.reverse := by
        rw [List.reverse_append, List.reverse_cons, List.append_assoc, List.singleton_append]
      rw [hrev]
      have htw : List.takeWhile (fun c => decide (c ≠ '/')) (p2.reverse ++ '/' :: p1.reverse) =
          p2.reverse := by
        apply takeWhile_append_stop
        · intro x hx
          have hxp : x ∈ p2 := List.mem_reverse.1 hx
          simp only [decide_eq_true_eq]
          intro he
          exact hn2 (he ▸ hxp)
        · decide
      rw [htw]
      have hmr : (∀ c ∈ p2.reverse, c = '.') ↔ (∀ c ∈ p2, c = '.') := by
        constructor
        · intro h c hc
          exact h c (List.mem_reverse.2 hc)
        · intro h c hc
          exact h c (List.mem_reverse.1 hc)
      rw [if_congr hmr rfl rfl]
      exact branch_eq p2 post

/-- C9 amended, witness: a dotless name and an ordinary dotted name. -/
theorem claim9_amended_witness :
    splitext_ext "notes" = "" ∧ splitext_ext "a.txt" = ".txt" := by
  constructor
  · exact (claim9_amended "notes").1 (by decide)
  · have h := (claim9_amended "a.txt").2 ['a'] ['t', 'x', 't'] rfl (by decide) (by decide)
    rw [h]
    decide

end App
